import Mathlib

/-!
Verification of the non-standard datetime decoder of the `datos` package
(the Spanish open-data API client). The decoder is `Datetime.UnmarshalJSON`
together with its grammar-step primitives `readChars`, `expectChars`,
`readInt`, `skipChars`, `skipSpaces` and the month table `months`.

The embedding works at the rune level: the raw bytes of the JSON string
literal are modelled as a `List Char` (the sequence of runes produced by
`bufio.Reader.ReadRune` over the input bytes), and each Go parse function
becomes a Lean function threading the remaining input explicitly. Fallible
steps return `Except StepErr`. Machine integers never overflow here (all
numeric fields have at most 4 digits), so `Int` is used directly.
-/

namespace Datos

/-- Model of the value stored in a Go `time.Time` as produced by
`time.Date(..., time.UTC)`: seconds since the Unix epoch, the nanosecond
part, and whether the location is UTC. The decoder always passes zero
nanoseconds and `time.UTC`. -/
structure GoTime where
  sec : Int
  nsec : Int
  utc : Bool
deriving DecidableEq, Repr

/-- Model of the `Datetime` struct, which embeds a `time.Time`. -/
structure Datetime where
  time : GoTime
deriving DecidableEq, Repr

/-- Errors produced by the grammar-step primitives:
`eof` models the `io.EOF` returned by `ReadRune` on exhausted input;
`expected` models the `expecting: %s, got: %s` error of `expectChars`;
`badInt` models the `strconv.Atoi` syntax error of `readInt`. -/
inductive StepErr where
  | eof
  | expected (exp got : List Char)
  | badInt (s : List Char)
deriving DecidableEq, Repr

/-- Errors returned by `UnmarshalJSON`. A step failure is wrapped as
`error parsing date %q: %s`, so it carries the raw input together with the
step error; an unknown month is reported as `invalid month: %s`, carrying
only the three-character month token. -/
inductive DecodeErr where
  | stepFailed (raw : List Char) (e : StepErr)
  | invalidMonth (mo : List Char)
deriving DecidableEq, Repr

/-- The local variables filled in by the step pipeline of `UnmarshalJSON`:
`var mo string` and `var day, y, h, m, s int`. -/
structure ParseOut where
  day : Int
  mo : List Char
  y : Int
  h : Int
  m : Int
  s : Int
deriving DecidableEq, Repr

/-- Model of `unicode.IsSpace`: the Latin-1 whitespace characters
(tab, newline, vertical tab, form feed, carriage return, space, next line,
no-break space) plus the code points with the Unicode White_Space property. -/
def goIsSpace (c : Char) : Bool :=
  let n := c.toNat
  n == 9 || n == 10 || n == 11 || n == 12 || n == 13 || n == 32 ||
  n == 0x85 || n == 0xA0 || n == 0x1680 ||
  (decide (0x2000 ≤ n) && decide (n ≤ 0x200A)) ||
  n == 0x2028 || n == 0x2029 || n == 0x202F || n == 0x205F || n == 0x3000

/-- Decimal digit test, as in the fast path of `strconv.Atoi`
(each byte must satisfy `0 <= ch - '0' <= 9`). -/
def isDigitCh (c : Char) : Bool :=
  decide (48 ≤ c.toNat) && decide (c.toNat ≤ 57)

/-- Numeric value of a digit character (`ch - '0'`). -/
def digitVal (c : Char) : Int :=
  (c.toNat : Int) - 48

/-- The digit-accumulation loop of the `strconv.Atoi` fast path:
`n = n*10 + int(ch - '0')`, failing on the first non-digit character. -/
def digitsVal : List Char → Int → Option Int
  | [], acc => some acc
  | c :: cs, acc => if isDigitCh c then digitsVal cs (acc * 10 + digitVal c) else none

/-- Model of `strconv.Atoi` on the short strings read by `readInt`
(at most 4 characters, so always on the overflow-free fast path):
an optional single leading sign, then one or more decimal digits.
The empty string and a bare sign are syntax errors. -/
def atoi (cs : List Char) : Option Int :=
  match cs with
  | [] => none
  | c :: rest =>
    if c = '-' then
      match rest with
      | [] => none
      | _ => (digitsVal rest 0).map Int.neg
    else if c = '+' then
      match rest with
      | [] => none
      | _ => digitsVal rest 0
    else digitsVal (c :: rest) 0

/-- Model of `readChars(n, out)`: read `n` runes into a buffer preallocated
with `make([]rune, n)` (zero-initialized). If `ReadRune` hits `io.EOF` on
the final required character (`n-1 == i`), the loop `continue`s instead of
failing, so the final slot keeps the zero rune and the produced string ends
in the NUL character; `io.EOF` any earlier is returned as the error. -/
def readChars : Nat → List Char → Except StepErr (List Char × List Char)
  | 0, cs => .ok ([], cs)
  | 1, [] => .ok (['\x00'], [])
  | _ + 2, [] => .error .eof
  | n + 1, c :: cs =>
    match readChars n cs with
    | .error e => .error e
    | .ok (r, rest) => .ok (c :: r, rest)

/-- Model of `readInt(size, out)`: `readChars` into a string, then
`strconv.Atoi`; an `Atoi` syntax error is propagated as a step failure. -/
def readInt (size : Nat) (cs : List Char) : Except StepErr (Int × List Char) :=
  match readChars size cs with
  | .error e => .error e
  | .ok (str, rest) =>
    match atoi str with
    | none => .error (.badInt str)
    | some n => .ok (n, rest)

/-- Model of `expectChars(expected)`: read exactly
`utf8.RuneCountInString(expected)` characters and require them to equal
`expected`, otherwise fail with `expecting: %s, got: %s`. -/
def expectChars (expected : List Char) (cs : List Char) : Except StepErr (List Char) :=
  match readChars expected.length cs with
  | .error e => .error e
  | .ok (result, rest) =>
    if result = expected then .ok rest else .error (.expected expected result)

/-- Model of `skipChars(n)`: `readChars` into a discarded buffer. -/
def skipChars (n : Nat) (cs : List Char) : Except StepErr (List Char) :=
  match readChars n cs with
  | .error e => .error e
  | .ok (_, rest) => .ok rest

/-- Model of `skipSpaces`: read runes while they satisfy `unicode.IsSpace`,
put back (`UnreadRune`) the first non-space rune, and treat `io.EOF` as
success. `ReadRune` over an in-memory reader can only fail with `io.EOF`,
and `UnreadRune` directly after a successful `ReadRune` always succeeds,
so no error path remains. -/
def skipSpaces : List Char → Except StepErr (List Char)
  | [] => .ok []
  | c :: cs => if goIsSpace c then skipSpaces cs else .ok (c :: cs)

/-- Model of the package-level `months` map, used as `months[mo]`:
the twelve lowercase Spanish month abbreviations mapped to `time.January`
(= 1) through `time.December` (= 12). -/
def months (mo : List Char) : Option Int :=
  if mo = ['e', 'n', 'e'] then some 1
  else if mo = ['f', 'e', 'b'] then some 2
  else if mo = ['m', 'a', 'r'] then some 3
  else if mo = ['a', 'b', 'r'] then some 4
  else if mo = ['m', 'a', 'y'] then some 5
  else if mo = ['j', 'u', 'n'] then some 6
  else if mo = ['j', 'u', 'l'] then some 7
  else if mo = ['a', 'g', 'o'] then some 8
  else if mo = ['s', 'e', 'p'] then some 9
  else if mo = ['o', 'c', 't'] then some 10
  else if mo = ['n', 'o', 'v'] then some 11
  else if mo = ['d', 'i', 'c'] then some 12
  else none

/-- Days from the Unix epoch to the proleptic Gregorian date (y, m, d),
for a month index m in 1..12 and an arbitrary (possibly out-of-range,
possibly negative) day, matching the date arithmetic of Go `time.Date`. -/
def daysFromCivil (y m d : Int) : Int :=
  let yy := if m ≤ 2 then y - 1 else y
  let era := Int.fdiv yy 400
  let yoe := yy - era * 400
  let mp := Int.emod (m + 9) 12
  let doy := Int.fdiv (153 * mp + 2) 5 + (d - 1)
  let doe := yoe * 365 + Int.fdiv yoe 4 - Int.fdiv yoe 100 + doy
  era * 146097 + doe - 719468

/-- Model of `time.Date(y, mon, day, h, mi, s, 0, time.UTC)`: the month is
normalized into 1..12 (adjusting the year), and all remaining components
are pure arithmetic offsets, so out-of-range day, hour, minute and second
values roll over exactly as in Go `norm`. The result is an instant in UTC
with zero sub-second. -/
def timeDate (y mon day h mi s : Int) : GoTime :=
  let m0 := mon - 1
  let yN := y + Int.fdiv m0 12
  let mN := Int.emod m0 12 + 1
  ⟨daysFromCivil yN mN day * 86400 + h * 3600 + mi * 60 + s, 0, true⟩

/-- The ordered step pipeline of `UnmarshalJSON` (the `steps` slice),
applied in sequence over the reader, each write-through-pointer becoming a
bound result. The first failing step short-circuits the whole pipeline. -/
def runSteps (cs : List Char) : Except StepErr ParseOut := do
  let cs ← expectChars ['"'] cs
  let cs ← skipChars 3 cs
  let cs ← expectChars [','] cs
  let cs ← skipSpaces cs
  let (day, cs) ← readInt 2 cs
  let cs ← skipSpaces cs
  let (mo, cs) ← readChars 3 cs
  let cs ← skipSpaces cs
  let (y, cs) ← readInt 4 cs
  let cs ← skipSpaces cs
  let (h, cs) ← readInt 2 cs
  let cs ← expectChars [':'] cs
  let (m, cs) ← readInt 2 cs
  let cs ← expectChars [':'] cs
  let (s, cs) ← readInt 2 cs
  let cs ← skipSpaces cs
  let cs ← expectChars ['G', 'M', 'T', '+', '0', '0', '0', '0'] cs
  let _ ← expectChars ['"'] cs
  pure ⟨day, mo, y, h, m, s⟩

/-- Model of `Datetime.UnmarshalJSON`: run the step pipeline; a step error
is wrapped with the raw input (`error parsing date %q: %s`) and returned,
leaving the receiver untouched; an unknown month token is reported as
`invalid month: %s` (not wrapped), also leaving the receiver untouched;
otherwise the receiver is set to
`time.Date(y, month, day, h, m, s, 0, time.UTC)`. The Go method mutates
the receiver and returns `error`; here it maps the old receiver value to
the new one paired with the optional error. -/
def unmarshalJSON (b : List Char) (d : Datetime) : Datetime × Option DecodeErr :=
  match runSteps b with
  | .error e => (d, some (.stepFailed b e))
  | .ok out =>
    match months out.mo with
    | none => (d, some (.invalidMonth out.mo))
    | some month => (⟨timeDate out.y month out.day out.h out.m out.s⟩, none)

/-- Projection of a decode error that forgets the raw-input payload of a
wrapped step failure, keeping the step error itself (or the month token of
an unknown-month failure). Two decodes fail on the same step exactly when
their errors agree under this projection. -/
def errKind : DecodeErr → StepErr ⊕ List Char
  | .stepFailed _ e => .inl e
  | .invalidMonth mo => .inr mo

/-- Raw-input payload carried by a decode error, when there is one. -/
def carriesRaw : DecodeErr → Option (List Char)
  | .stepFailed raw _ => some raw
  | .invalidMonth _ => none

/-- Tests whether a decode outcome is a wrapped invalid-integer failure. -/
def isBadIntFailure : Option DecodeErr → Bool
  | some (.stepFailed _ (.badInt _)) => true
  | _ => false

/-- Characterization of the strings accepted by `strconv.Atoi`: an optional
single leading sign followed by one or more decimal digits. -/
def isSignedDigits (cs : List Char) : Bool :=
  match cs with
  | [] => false
  | c :: rest =>
    if c == '+' || c == '-' then !rest.isEmpty && rest.all isDigitCh
    else cs.all isDigitCh

/-- The well-formed input of the repository test `TestDatetime`
(raw bytes of the JSON string literal, quotes included). -/
def wfInput : List Char := "\"dom, 18 nov 2012 23:00:00 GMT+0000\"".data

/-- The well-formed input truncated by exactly one character before the
closing quote (the closing quote itself is gone). -/
def truncated1 : List Char := "\"dom, 18 nov 2012 23:00:00 GMT+0000".data

/-- The well-formed input truncated by two characters. -/
def truncated2 : List Char := "\"dom, 18 nov 2012 23:00:00 GMT+000".data

/-- A structurally well-formed input whose day field is `-5`: the sign
character is a non-digit, yet `strconv.Atoi` accepts it. -/
def negDayInput : List Char := "\"dom, -5 nov 2012 23:00:00 GMT+0000\"".data

/-- The end-to-end unknown-month input of the specification
(month token `foo`). -/
def fooInput : List Char := "\"xxx, 18 foo 2012 23:00:00 GMT+0000\"".data

/-- A concrete initial receiver value, deliberately nonzero so that
receiver preservation is observable. -/
def dInit : Datetime := ⟨⟨42, 7, true⟩⟩

/-- Generator of the structurally well-formed input family: the wire
format with single-space separators, a three-character weekday token, and
every field character left free. -/
def mkInput (w1 w2 w3 d1 d2 m1 m2 m3 y1 y2 y3 y4 h1 h2 i1 i2 s1 s2 : Char) : List Char :=
  '"' :: w1 :: w2 :: w3 :: ',' :: ' ' :: d1 :: d2 :: ' ' :: m1 :: m2 :: m3 :: ' ' ::
  y1 :: y2 :: y3 :: y4 :: ' ' :: h1 :: h2 :: ':' :: i1 :: i2 :: ':' :: s1 :: s2 :: ' ' ::
  'G' :: 'M' :: 'T' :: '+' :: '0' :: '0' :: '0' :: '0' :: '"' :: []

/-- Generator fixing every field except the month token. -/
def mkMonInput (m1 m2 m3 : Char) : List Char :=
  mkInput 'd' 'o' 'm' '1' '8' m1 m2 m3 '2' '0' '1' '2' '2' '3' '0' '0' '0' '0'

/-- Generator fixing every field except the timezone suffix: the literal
between the whitespace after the seconds field and the closing quote. -/
def mkTzInput (tz : List Char) : List Char :=
  '"' :: 'd' :: 'o' :: 'm' :: ',' :: ' ' :: '1' :: '8' :: ' ' :: 'n' :: 'o' :: 'v' :: ' ' ::
  '2' :: '0' :: '1' :: '2' :: ' ' :: '2' :: '3' :: ':' :: '0' :: '0' :: ':' :: '0' :: '0' ::
  ' ' :: (tz ++ ['"'])

/-- Value of a two-digit field. -/
def digits2 (a b : Char) : Int := digitVal a * 10 + digitVal b

/-- Value of a four-digit field. -/
def digits4 (a b c d : Char) : Int :=
  ((digitVal a * 10 + digitVal b) * 10 + digitVal c) * 10 + digitVal d

theorem bindE_ok {ε α β : Type} (a : α) (f : α → Except ε β) :
    (Except.ok a >>= f : Except ε β) = f a := rfl

theorem bindE_error {ε α β : Type} (e : ε) (f : α → Except ε β) :
    ((Except.error e : Except ε α) >>= f : Except ε β) = Except.error e := rfl

theorem readChars_sufficient (n : Nat) (cs : List Char) (h : n ≤ cs.length) :
    readChars n cs = .ok (cs.take n, cs.drop n) := by
  induction n generalizing cs with
  | zero => simp [readChars]
  | succ n ih =>
    cases cs with
    | nil => simp at h
    | cons c cs =>
      have h2 : n ≤ cs.length := by simpa using h
      simp [readChars, ih cs h2]

theorem readChars_short_one (cs : List Char) :
    readChars (cs.length + 1) cs = .ok (cs ++ ['\x00'], []) := by
  induction cs with
  | nil => rfl
  | cons c cs ih => simp [readChars, ih]

theorem readChars_too_short (n : Nat) (cs : List Char) (h : cs.length + 2 ≤ n) :
    readChars n cs = .error .eof := by
  induction cs generalizing n with
  | nil =>
    obtain ⟨k, rfl⟩ : ∃ k, n = k + 2 := ⟨n - 2, by omega⟩
    rfl
  | cons c cs ih =>
    obtain ⟨m, rfl⟩ : ∃ m, n = m + 1 := ⟨n - 1, by omega⟩
    have h2 : cs.length + 2 ≤ m := by simp at h; omega
    simp [readChars, ih m h2]

theorem expectChars_ok (pre rest : List Char) :
    expectChars pre (pre ++ rest) = .ok rest := by
  unfold expectChars
  rw [readChars_sufficient pre.length (pre ++ rest) (by simp)]
  simp

theorem skipSpaces_cons (c : Char) (cs : List Char) :
    skipSpaces (c :: cs) = if goIsSpace c then skipSpaces cs else .ok (c :: cs) := rfl

theorem skipSpaces_nonspace (c : Char) (cs : List Char) (h : goIsSpace c = false) :
    skipSpaces (c :: cs) = .ok (c :: cs) := by
  simp [skipSpaces_cons, h]

theorem skipSpaces_blank (cs : List Char) : skipSpaces (' ' :: cs) = skipSpaces cs := rfl

theorem expect_quote (cs : List Char) : expectChars ['"'] ('"' :: cs) = .ok cs := rfl

theorem expect_comma (cs : List Char) : expectChars [','] (',' :: cs) = .ok cs := rfl

theorem expect_colon (cs : List Char) : expectChars [':'] (':' :: cs) = .ok cs := rfl

theorem expect_gmt (cs : List Char) :
    expectChars ['G', 'M', 'T', '+', '0', '0', '0', '0']
      ('G' :: 'M' :: 'T' :: '+' :: '0' :: '0' :: '0' :: '0' :: cs) = .ok cs := rfl

theorem skipChars3_cons (a b c : Char) (cs : List Char) :
    skipChars 3 (a :: b :: c :: cs) = .ok cs := rfl

theorem readChars3_cons (a b c : Char) (cs : List Char) :
    readChars 3 (a :: b :: c :: cs) = .ok ([a, b, c], cs) := rfl

theorem readInt2_cons (a b : Char) (cs : List Char) :
    readInt 2 (a :: b :: cs) =
      match atoi [a, b] with
      | none => .error (.badInt [a, b])
      | some v => .ok (v, cs) := rfl

theorem readInt4_cons (a b c d : Char) (cs : List Char) :
    readInt 4 (a :: b :: c :: d :: cs) =
      match atoi [a, b, c, d] with
      | none => .error (.badInt [a, b, c, d])
      | some v => .ok (v, cs) := rfl

set_option linter.unnecessarySeqFocus false in
/-- Running the pipeline on a generated input reduces to checking the five
numeric fields with `atoi` in pipeline order; the weekday and month tokens
are read without validation. The head of each field that follows a
whitespace skip must not itself be whitespace, or the skip would consume
into the field. -/
theorem runSteps_mkInput (w1 w2 w3 d1 d2 m1 m2 m3 y1 y2 y3 y4 h1 h2 i1 i2 s1 s2 : Char)
    (hd : goIsSpace d1 = false) (hm : goIsSpace m1 = false)
    (hy : goIsSpace y1 = false) (hh : goIsSpace h1 = false) :
    runSteps (mkInput w1 w2 w3 d1 d2 m1 m2 m3 y1 y2 y3 y4 h1 h2 i1 i2 s1 s2) =
      match atoi [d1, d2], atoi [y1, y2, y3, y4], atoi [h1, h2],
            atoi [i1, i2], atoi [s1, s2] with
      | none, _, _, _, _ => .error (.badInt [d1, d2])
      | some _, none, _, _, _ => .error (.badInt [y1, y2, y3, y4])
      | some _, some _, none, _, _ => .error (.badInt [h1, h2])
      | some _, some _, some _, none, _ => .error (.badInt [i1, i2])
      | some _, some _, some _, some _, none => .error (.badInt [s1, s2])
      | some dv, some yv, some hv, some iv, some sv =>
          .ok ⟨dv, [m1, m2, m3], yv, hv, iv, sv⟩ := by
  cases hA : atoi [d1, d2] <;> cases hB : atoi [y1, y2, y3, y4] <;>
    cases hC : atoi [h1, h2] <;> cases hD : atoi [i1, i2] <;> cases hE : atoi [s1, s2] <;>
    simp only [runSteps, mkInput, expect_quote, bindE_ok, bindE_error, skipChars3_cons,
      expect_comma, skipSpaces_blank, skipSpaces_nonspace _ _ hd, skipSpaces_nonspace _ _ hm,
      skipSpaces_nonspace _ _ hy, skipSpaces_nonspace _ _ hh, readInt2_cons, readInt4_cons,
      readChars3_cons, expect_colon, expect_gmt, hA, hB, hC, hD, hE] <;> rfl

theorem digitsVal_isSome (cs : List Char) :
    ∀ acc : Int, (digitsVal cs acc).isSome = cs.all isDigitCh := by
  induction cs with
  | nil => intro acc; rfl
  | cons c cs ih =>
    intro acc
    cases h : isDigitCh c <;> simp [digitsVal, h, ih, List.all_cons]

theorem atoi_isSome_eq (cs : List Char) : (atoi cs).isSome = isSignedDigits cs := by
  cases cs with
  | nil => rfl
  | cons c rest =>
    by_cases hmi : c = '-'
    · subst hmi
      cases rest with
      | nil => rfl
      | cons r rs => simp [atoi, isSignedDigits, digitsVal_isSome]
    · by_cases hpl : c = '+'
      · subst hpl
        cases rest with
        | nil => rfl
        | cons r rs => simp [atoi, isSignedDigits, digitsVal_isSome]
      · have hm2 : (c == '-') = false := by simp [hmi]
        have hp2 : (c == '+') = false := by simp [hpl]
        simp [atoi, isSignedDigits, hmi, hpl, hm2, hp2, digitsVal_isSome]

/-- C1: for the well-formed input of the repository test, decoding succeeds
for every initial receiver and sets the receiver to exactly the instant
2012-11-18T23:00:00 UTC (zero sub-second, UTC location); that instant is
Unix second 1353279600. -/
theorem c1_wellformed_input_decodes_exactly :
    ∀ d : Datetime,
      unmarshalJSON wfInput d = (⟨timeDate 2012 11 18 23 0 0⟩, none) ∧
      timeDate 2012 11 18 23 0 0 = ⟨1353279600, 0, true⟩ :=
  fun _ => ⟨rfl, by decide⟩

/-- C6: whenever the decode returns an error, the receiver is returned
unchanged; the decode never partially populates the result. -/
theorem c6_error_leaves_receiver (b : List Char) (d : Datetime)
    (h : (unmarshalJSON b d).2 ≠ none) : (unmarshalJSON b d).1 = d := by
  unfold unmarshalJSON at h ⊢
  cases hr : runSteps b with
  | error e => simp
  | ok out =>
    cases hmo : months out.mo with
    | none => simp [hmo]
    | some m =>
      exfalso
      apply h
      simp [hr, hmo]

/-- Witness for C6 at a concrete failing input and a nonzero receiver. -/
theorem c6_error_leaves_receiver_witness :
    (unmarshalJSON ['"', 'x'] dInit).2 ≠ none ∧ (unmarshalJSON ['"', 'x'] dInit).1 = dInit :=
  ⟨by decide, c6_error_leaves_receiver ['"', 'x'] dInit (by decide)⟩

/-- C8: the skip-whitespace step never returns an error: on every cursor
state it succeeds, consuming exactly the leading run of whitespace
characters and leaving the cursor at the first non-whitespace character
when one exists (end-of-input counts as no more whitespace). -/
theorem c8_skipSpaces_never_fails (cs : List Char) :
    skipSpaces cs = .ok (cs.dropWhile goIsSpace) := by
  induction cs with
  | nil => rfl
  | cons c cs ih =>
    cases h : goIsSpace c <;> simp [skipSpaces_cons, h, List.dropWhile_cons, ih]

/-- C9: the three characters following the opening quote (the weekday
token) are skipped without validation and have no influence on the
outcome: two inputs differing only there produce the same receiver value,
and their errors (if any) agree once the wrapped raw-input payload is
projected away, so they fail on the same later step. -/
theorem c9_weekday_irrelevant (a1 a2 a3 b1 b2 b3 : Char) (rest : List Char) (d : Datetime) :
    (unmarshalJSON ('"' :: a1 :: a2 :: a3 :: rest) d).1 =
      (unmarshalJSON ('"' :: b1 :: b2 :: b3 :: rest) d).1 ∧
    ((unmarshalJSON ('"' :: a1 :: a2 :: a3 :: rest) d).2).map errKind =
      ((unmarshalJSON ('"' :: b1 :: b2 :: b3 :: rest) d).2).map errKind := by
  have hsteps : runSteps ('"' :: a1 :: a2 :: a3 :: rest) =
      runSteps ('"' :: b1 :: b2 :: b3 :: rest) := by
    simp only [runSteps, expect_quote, bindE_ok, skipChars3_cons]
  unfold unmarshalJSON
  rw [hsteps]
  cases runSteps ('"' :: b1 :: b2 :: b3 :: rest) with
  | error e => exact ⟨rfl, rfl⟩
  | ok out => cases months out.mo <;> exact ⟨rfl, rfl⟩

/-- C2 counterexample: the well-formed test input truncated by exactly one
character before the closing quote is rejected by the decode, contrary to
the claim that it still succeeds. -/
theorem c2_truncated_by_one_fails :
    truncated1 = wfInput.dropLast ∧ (unmarshalJSON truncated1 dInit).2 ≠ none := by decide

/-- C2 (amended): the one-short tolerance exists only inside the
character-reading step: a read of n characters that hits end-of-input on
the final required character succeeds, padding the final slot with the NUL
rune, while end-of-input any earlier is an eof failure. The whole decode of
an input truncated by one character before the closing quote nevertheless
fails, because the padded NUL does not match the expected closing quote;
truncation by two characters fails as well (at the timezone literal, again
with a NUL-padded short read). -/
theorem c2_short_final_read_behavior :
    (∀ (n : Nat) (cs : List Char), cs.length + 1 = n →
      readChars n cs = .ok (cs ++ ['\x00'], [])) ∧
    (∀ (n : Nat) (cs : List Char), cs.length + 2 ≤ n → readChars n cs = .error .eof) ∧
    (∀ d : Datetime, unmarshalJSON truncated1 d =
      (d, some (.stepFailed truncated1 (.expected ['"'] ['\x00'])))) ∧
    (∀ d : Datetime, unmarshalJSON truncated2 d =
      (d, some (.stepFailed truncated2
        (.expected ['G', 'M', 'T', '+', '0', '0', '0', '0']
          ['G', 'M', 'T', '+', '0', '0', '0', '\x00'])))) := by
  refine ⟨?_, readChars_too_short, fun d => rfl, fun d => rfl⟩
  intro n cs h
  subst h
  exact readChars_short_one cs

/-- Witness for C2 at concrete reads: three characters requested with two
available is the tolerated short final read; four requested with two
available is an eof failure. -/
theorem c2_short_final_read_behavior_witness :
    readChars 3 ['a', 'b'] = .ok (['a', 'b', '\x00'], []) ∧
    readChars 4 ['a', 'b'] = .error .eof :=
  ⟨c2_short_final_read_behavior.1 3 ['a', 'b'] (by decide),
   c2_short_final_read_behavior.2.1 4 ['a', 'b'] (by decide)⟩

/-- C3 counterexample: a day field of `-5` contains a non-digit character,
yet the decode succeeds: strconv.Atoi accepts one leading sign, so the day
parses as the negative integer -5 and the date arithmetic rolls it back to
2012-10-26. -/
theorem c3_signed_day_accepted :
    (unmarshalJSON negDayInput dInit).2 = none ∧
    (unmarshalJSON negDayInput dInit).1 = ⟨timeDate 2012 11 (-5) 23 0 0⟩ ∧
    timeDate 2012 11 (-5) 23 0 0 = timeDate 2012 10 26 23 0 0 := by decide

/-- C3 (amended): a numeric field makes the decode fail exactly when its
text is not an optional single leading sign followed by digits: whenever
any of the five numeric fields of a structurally well-formed input is
rejected by Atoi, the decode fails with a wrapped invalid-integer step
failure; and Atoi accepts precisely the signed-digit strings, so a sign
character in leading position does not make the field fail. -/
theorem c3_nondigit_numeric_fields
    (w1 w2 w3 d1 d2 m1 m2 m3 y1 y2 y3 y4 h1 h2 i1 i2 s1 s2 : Char) (dd : Datetime)
    (hd : goIsSpace d1 = false) (hm : goIsSpace m1 = false)
    (hy : goIsSpace y1 = false) (hh : goIsSpace h1 = false)
    (hbad : atoi [d1, d2] = none ∨ atoi [y1, y2, y3, y4] = none ∨ atoi [h1, h2] = none ∨
      atoi [i1, i2] = none ∨ atoi [s1, s2] = none) :
    isBadIntFailure
      (unmarshalJSON (mkInput w1 w2 w3 d1 d2 m1 m2 m3 y1 y2 y3 y4 h1 h2 i1 i2 s1 s2) dd).2
      = true ∧
    ∀ cs : List Char, (atoi cs).isSome = isSignedDigits cs := by
  refine ⟨?_, atoi_isSome_eq⟩
  have hrs := runSteps_mkInput w1 w2 w3 d1 d2 m1 m2 m3 y1 y2 y3 y4 h1 h2 i1 i2 s1 s2 hd hm hy hh
  unfold unmarshalJSON
  rw [hrs]
  cases hA : atoi [d1, d2] <;> cases hB : atoi [y1, y2, y3, y4] <;>
    cases hC : atoi [h1, h2] <;> cases hD : atoi [i1, i2] <;> cases hE : atoi [s1, s2] <;>
    simp_all [isBadIntFailure]

/-- Witness for C3 at a concrete input whose day field is `x2`. -/
theorem c3_nondigit_numeric_fields_witness :
    isBadIntFailure
      (unmarshalJSON (mkInput 'd' 'o' 'm' 'x' '2' 'n' 'o' 'v' '2' '0' '1' '2' '2' '3' '0' '0' '0' '0') dInit).2
      = true ∧
    (atoi ['x', '2']).isSome = isSignedDigits ['x', '2'] :=
  ⟨(c3_nondigit_numeric_fields 'd' 'o' 'm' 'x' '2' 'n' 'o' 'v' '2' '0' '1' '2' '2' '3' '0' '0' '0' '0'
      dInit (by decide) (by decide) (by decide) (by decide) (Or.inl (by decide))).1,
   (c3_nondigit_numeric_fields 'd' 'o' 'm' 'x' '2' 'n' 'o' 'v' '2' '0' '1' '2' '2' '3' '0' '0' '0' '0'
      dInit (by decide) (by decide) (by decide) (by decide) (Or.inl (by decide))).2 ['x', '2']⟩

/-- C7 counterexample: on the unknown-month input the decode fails with the
unwrapped `invalid month: foo` error, which carries only the month token
and not the original raw input. -/
theorem c7_invalid_month_lacks_raw :
    (unmarshalJSON fooInput dInit).2 = some (.invalidMonth ['f', 'o', 'o']) ∧
    carriesRaw (.invalidMonth ['f', 'o', 'o']) = none ∧
    carriesRaw (.invalidMonth ['f', 'o', 'o']) ≠ some fooInput := by decide

/-- C7 (amended): every step failure, whatever its kind, is wrapped
together with the original raw input: if the decode error is a wrapped
step failure carrying raw input r, then r is the input; only the
unknown-month failure escapes unwrapped. -/
theorem c7_step_errors_wrap_raw (b : List Char) (d : Datetime) (r : List Char) (e : StepErr)
    (h : (unmarshalJSON b d).2 = some (.stepFailed r e)) : r = b := by
  unfold unmarshalJSON at h
  cases hr : runSteps b with
  | error e2 =>
    rw [hr] at h
    simp only [Option.some.injEq, DecodeErr.stepFailed.injEq] at h
    exact h.1.symm
  | ok out =>
    rw [hr] at h
    cases hmo : months out.mo with
    | none => simp [hmo] at h
    | some m => simp [hmo] at h

/-- Witness for C7 at a concrete failing input. -/
theorem c7_step_errors_wrap_raw_witness :
    (unmarshalJSON ['x'] dInit).2 = some (.stepFailed ['x'] (.expected ['"'] ['x'])) ∧
    (['x'] : List Char) = ['x'] :=
  ⟨by decide, c7_step_errors_wrap_raw ['x'] dInit ['x'] (.expected ['"'] ['x']) (by decide)⟩

theorem digit_not_sign (c : Char) (h : isDigitCh c = true) : c ≠ '-' ∧ c ≠ '+' := by
  constructor <;> intro he <;> subst he <;> revert h <;> decide

theorem atoi_two_digits (a b : Char) (ha : isDigitCh a = true) (hb : isDigitCh b = true) :
    atoi [a, b] = some (digits2 a b) := by
  obtain ⟨hm, hp⟩ := digit_not_sign a ha
  simp [atoi, hm, hp, digitsVal, ha, hb, digits2]

theorem atoi_four_digits (a b c d : Char) (ha : isDigitCh a = true) (hb : isDigitCh b = true)
    (hc : isDigitCh c = true) (hd : isDigitCh d = true) :
    atoi [a, b, c, d] = some (digits4 a b c d) := by
  obtain ⟨hm, hp⟩ := digit_not_sign a ha
  simp [atoi, hm, hp, digitsVal, ha, hb, hc, hd, digits4, add_mul]

theorem digit_not_space (c : Char) (h : isDigitCh c = true) : goIsSpace c = false := by
  unfold isDigitCh at h
  unfold goIsSpace
  simp only [Bool.and_eq_true, decide_eq_true_eq] at h
  simp only [Bool.or_eq_false_iff, beq_eq_false_iff_ne, ne_eq, Bool.and_eq_false_iff,
    decide_eq_false_iff_not, not_le]
  omega

theorem months_space_head (m1 m2 m3 : Char) (hsp : goIsSpace m1 = true) :
    months [m1, m2, m3] = none := by
  have ne : ∀ (c : Char) (l : List Char), goIsSpace c = false → [m1, m2, m3] ≠ c :: l := by
    intro c l hc habs
    injection habs with h1 _
    rw [h1] at hsp
    rw [hsp] at hc
    exact Bool.noConfusion hc
  unfold months
  rw [if_neg (ne 'e' ['n', 'e'] (by decide)), if_neg (ne 'f' ['e', 'b'] (by decide)),
    if_neg (ne 'm' ['a', 'r'] (by decide)), if_neg (ne 'a' ['b', 'r'] (by decide)),
    if_neg (ne 'm' ['a', 'y'] (by decide)), if_neg (ne 'j' ['u', 'n'] (by decide)),
    if_neg (ne 'j' ['u', 'l'] (by decide)), if_neg (ne 'a' ['g', 'o'] (by decide)),
    if_neg (ne 's' ['e', 'p'] (by decide)), if_neg (ne 'o' ['c', 't'] (by decide)),
    if_neg (ne 'n' ['o', 'v'] (by decide)), if_neg (ne 'd' ['i', 'c'] (by decide))]

theorem months_head_nonspace (m1 m2 m3 : Char) (mv : Int)
    (h : months [m1, m2, m3] = some mv) : goIsSpace m1 = false := by
  cases hsp : goIsSpace m1 with
  | false => rfl
  | true =>
    rw [months_space_head m1 m2 m3 hsp] at h
    exact Option.noConfusion h

theorem expectChars_match (expected cs rest : List Char)
    (hr : readChars expected.length cs = .ok (expected, rest)) :
    expectChars expected cs = .ok rest := by
  unfold expectChars
  rw [hr]
  simp

theorem expectChars_mismatch (expected cs got rest : List Char)
    (hr : readChars expected.length cs = .ok (got, rest)) (hne : got ≠ expected) :
    expectChars expected cs = .error (.expected expected got) := by
  unfold expectChars
  rw [hr]
  simp [hne]

theorem expectChars_readErr (expected cs : List Char) (e : StepErr)
    (hr : readChars expected.length cs = .error e) :
    expectChars expected cs = .error e := by
  unfold expectChars
  rw [hr]

/-- Running the pipeline on a generated timezone input: every step before
the timezone is fixed and succeeds, leaving the whitespace skip, the
timezone literal and the closing quote over the suffix. -/
theorem runSteps_mkTzInput (tz : List Char) :
    runSteps (mkTzInput tz) =
      (skipSpaces (tz ++ ['"']) >>= fun cs =>
        expectChars ['G', 'M', 'T', '+', '0', '0', '0', '0'] cs >>= fun cs2 =>
        expectChars ['"'] cs2 >>= fun _ =>
        Except.ok ⟨18, ['n', 'o', 'v'], 2012, 23, 0, 0⟩) := rfl

/-- C10: the decoder performs no calendar-range validation: every
structurally well-formed input whose numeric fields are all digits decodes
successfully for any digit values whatsoever, producing the instant
obtained by arithmetic normalization of (year, month, day, hour, minute,
second) in UTC. -/
theorem c10_no_range_validation
    (w1 w2 w3 d1 d2 m1 m2 m3 y1 y2 y3 y4 h1 h2 i1 i2 s1 s2 : Char) (dd : Datetime) (mv : Int)
    (hd1 : isDigitCh d1 = true) (hd2 : isDigitCh d2 = true)
    (hy1 : isDigitCh y1 = true) (hy2 : isDigitCh y2 = true)
    (hy3 : isDigitCh y3 = true) (hy4 : isDigitCh y4 = true)
    (hh1 : isDigitCh h1 = true) (hh2 : isDigitCh h2 = true)
    (hi1 : isDigitCh i1 = true) (hi2 : isDigitCh i2 = true)
    (hs1 : isDigitCh s1 = true) (hs2 : isDigitCh s2 = true)
    (hmo : months [m1, m2, m3] = some mv) :
    unmarshalJSON (mkInput w1 w2 w3 d1 d2 m1 m2 m3 y1 y2 y3 y4 h1 h2 i1 i2 s1 s2) dd =
      (⟨timeDate (digits4 y1 y2 y3 y4) mv (digits2 d1 d2) (digits2 h1 h2) (digits2 i1 i2)
        (digits2 s1 s2)⟩, none) := by
  have hrs := runSteps_mkInput w1 w2 w3 d1 d2 m1 m2 m3 y1 y2 y3 y4 h1 h2 i1 i2 s1 s2
    (digit_not_space d1 hd1) (months_head_nonspace m1 m2 m3 mv hmo)
    (digit_not_space y1 hy1) (digit_not_space h1 hh1)
  unfold unmarshalJSON
  rw [hrs, atoi_two_digits d1 d2 hd1 hd2, atoi_four_digits y1 y2 y3 y4 hy1 hy2 hy3 hy4,
    atoi_two_digits h1 h2 hh1 hh2, atoi_two_digits i1 i2 hi1 hi2, atoi_two_digits s1 s2 hs1 hs2]
  simp only [hmo]

/-- Witness for C10: day 32, hour 25, minute 61 and second 61 of January
2012 decode successfully and normalize to 2012-02-02T02:02:01 UTC. -/
theorem c10_no_range_validation_witness :
    unmarshalJSON (mkInput 'd' 'o' 'm' '3' '2' 'e' 'n' 'e' '2' '0' '1' '2' '2' '5' '6' '1' '6' '1')
        dInit = (⟨timeDate 2012 2 2 2 2 1⟩, none) :=
  (c10_no_range_validation 'd' 'o' 'm' '3' '2' 'e' 'n' 'e' '2' '0' '1' '2' '2' '5' '6' '1' '6' '1'
    dInit 1 (by decide) (by decide) (by decide) (by decide) (by decide) (by decide) (by decide)
    (by decide) (by decide) (by decide) (by decide) (by decide) (by decide)).trans (by decide)

/-- C4: each of the twelve recognized lowercase month abbreviations
decodes to the corresponding month-of-year 1 through 12; the lookup is
case-sensitive (uppercase variants are absent from the table); and any
month token absent from the table makes the decode fail with an
invalid-month error naming the offending token. -/
theorem c4_month_table :
    ((∀ d, unmarshalJSON (mkMonInput 'e' 'n' 'e') d = (⟨timeDate 2012 1 18 23 0 0⟩, none)) ∧
     (∀ d, unmarshalJSON (mkMonInput 'f' 'e' 'b') d = (⟨timeDate 2012 2 18 23 0 0⟩, none)) ∧
     (∀ d, unmarshalJSON (mkMonInput 'm' 'a' 'r') d = (⟨timeDate 2012 3 18 23 0 0⟩, none)) ∧
     (∀ d, unmarshalJSON (mkMonInput 'a' 'b' 'r') d = (⟨timeDate 2012 4 18 23 0 0⟩, none)) ∧
     (∀ d, unmarshalJSON (mkMonInput 'm' 'a' 'y') d = (⟨timeDate 2012 5 18 23 0 0⟩, none)) ∧
     (∀ d, unmarshalJSON (mkMonInput 'j' 'u' 'n') d = (⟨timeDate 2012 6 18 23 0 0⟩, none)) ∧
     (∀ d, unmarshalJSON (mkMonInput 'j' 'u' 'l') d = (⟨timeDate 2012 7 18 23 0 0⟩, none)) ∧
     (∀ d, unmarshalJSON (mkMonInput 'a' 'g' 'o') d = (⟨timeDate 2012 8 18 23 0 0⟩, none)) ∧
     (∀ d, unmarshalJSON (mkMonInput 's' 'e' 'p') d = (⟨timeDate 2012 9 18 23 0 0⟩, none)) ∧
     (∀ d, unmarshalJSON (mkMonInput 'o' 'c' 't') d = (⟨timeDate 2012 10 18 23 0 0⟩, none)) ∧
     (∀ d, unmarshalJSON (mkMonInput 'n' 'o' 'v') d = (⟨timeDate 2012 11 18 23 0 0⟩, none)) ∧
     (∀ d, unmarshalJSON (mkMonInput 'd' 'i' 'c') d = (⟨timeDate 2012 12 18 23 0 0⟩, none))) ∧
    (months ['E', 'N', 'E'] = none ∧ months ['E', 'n', 'e'] = none ∧
     months ['N', 'O', 'V'] = none) ∧
    (∀ (m1 m2 m3 : Char) (d : Datetime), goIsSpace m1 = false → months [m1, m2, m3] = none →
      (unmarshalJSON (mkMonInput m1 m2 m3) d).2 = some (.invalidMonth [m1, m2, m3])) := by
  refine ⟨⟨fun d => rfl, fun d => rfl, fun d => rfl, fun d => rfl, fun d => rfl, fun d => rfl,
    fun d => rfl, fun d => rfl, fun d => rfl, fun d => rfl, fun d => rfl, fun d => rfl⟩,
    by decide, ?_⟩
  intro m1 m2 m3 d hm hmo
  have hrs := runSteps_mkInput 'd' 'o' 'm' '1' '8' m1 m2 m3 '2' '0' '1' '2' '2' '3' '0' '0' '0' '0'
    (by decide) hm (by decide) (by decide)
  unfold mkMonInput unmarshalJSON
  rw [hrs, show atoi ['1', '8'] = some 18 from by decide,
    show atoi ['2', '0', '1', '2'] = some 2012 from by decide,
    show atoi ['2', '3'] = some 23 from by decide,
    show atoi ['0', '0'] = some 0 from by decide]
  simp only [hmo]

/-- Witness for C4 at the unknown month token of the specification. -/
theorem c4_month_table_witness :
    (unmarshalJSON (mkMonInput 'f' 'o' 'o') dInit).2 = some (.invalidMonth ['f', 'o', 'o']) :=
  c4_month_table.2.2 'f' 'o' 'o' dInit (by decide) (by decide)

/-- C5: only the exact literal GMT+0000 is accepted as the timezone
suffix: for every suffix other than that literal standing between the
whitespace after the seconds field and the closing quote (so the suffix
does not itself start with whitespace or contain a quote), the decode
fails. -/
theorem c5_timezone_literal_required (tz : List Char) (d : Datetime)
    (h1 : tz ≠ ['G', 'M', 'T', '+', '0', '0', '0', '0'])
    (h2 : '"' ∉ tz)
    (h3 : goIsSpace (tz.headD 'G') = false) :
    (unmarshalJSON (mkTzInput tz) d).2 ≠ none := by
  have hskip : skipSpaces (tz ++ ['"']) = .ok (tz ++ ['"']) := by
    cases tz with
    | nil => rfl
    | cons c rest => exact skipSpaces_nonspace c (rest ++ ['"']) h3
  unfold unmarshalJSON
  rw [runSteps_mkTzInput, hskip, bindE_ok]
  by_cases hlen7 : 7 ≤ tz.length
  · have hread : readChars 8 (tz ++ ['"']) = .ok ((tz ++ ['"']).take 8, (tz ++ ['"']).drop 8) :=
      readChars_sufficient 8 (tz ++ ['"']) (by simp; omega)
    by_cases hlen8 : 8 ≤ tz.length
    · have htake : (tz ++ ['"']).take 8 = tz.take 8 := List.take_append_of_le_length hlen8
      have hdrop : (tz ++ ['"']).drop 8 = tz.drop 8 ++ ['"'] :=
        List.drop_append_of_le_length hlen8
      by_cases heq : tz.take 8 = ['G', 'M', 'T', '+', '0', '0', '0', '0']
      · have hgt : 8 < tz.length := by
          rcases Nat.lt_or_ge 8 tz.length with hl | hl
          · exact hl
          · exfalso
            apply h1
            have hlen : tz.length = 8 := Nat.le_antisymm hl hlen8
            rw [← heq]
            exact (List.take_of_length_le (Nat.le_of_eq hlen)).symm
        obtain ⟨e, r, hdr⟩ : ∃ e r, tz.drop 8 = e :: r := by
          cases hd8 : tz.drop 8 with
          | nil =>
            exfalso
            have := List.drop_eq_nil_iff.mp hd8
            omega
          | cons e r => exact ⟨e, r, rfl⟩
        have hne : e ≠ '"' := by
          intro he
          apply h2
          subst he
          exact List.drop_subset 8 tz (hdr ▸ List.mem_cons_self '"' r)
        have hexp : expectChars ['G', 'M', 'T', '+', '0', '0', '0', '0'] (tz ++ ['"']) =
            .ok (e :: (r ++ ['"'])) := by
          apply expectChars_match
          show readChars 8 (tz ++ ['"']) = _
          rw [hread, htake, heq, hdrop, hdr]
          rfl
        rw [hexp, bindE_ok]
        have hq : expectChars ['"'] (e :: (r ++ ['"'])) = .error (.expected ['"'] [e]) := by
          apply expectChars_mismatch ['"'] _ [e] (r ++ ['"'])
          · exact readChars_sufficient 1 _ (by simp)
          · simp [hne]
        rw [hq, bindE_error]
        simp
      · have hexp : expectChars ['G', 'M', 'T', '+', '0', '0', '0', '0'] (tz ++ ['"']) =
            .error (.expected ['G', 'M', 'T', '+', '0', '0', '0', '0'] (tz.take 8)) := by
          apply expectChars_mismatch _ _ _ ((tz ++ ['"']).drop 8)
          · show readChars 8 (tz ++ ['"']) = _
            rw [hread, htake]
          · exact heq
        rw [hexp, bindE_error]
        simp
    · have hlen : tz.length = 7 := by omega
      have htake : (tz ++ ['"']).take 8 = tz ++ ['"'] :=
        List.take_of_length_le (by simp [hlen])
      have hne : tz ++ ['"'] ≠ ['G', 'M', 'T', '+', '0', '0', '0', '0'] := by
        intro he
        have hl : (tz ++ ['"']).getLast? = some '"' := List.getLast?_concat tz
        rw [he] at hl
        exact absurd hl (by decide)
      have hexp : expectChars ['G', 'M', 'T', '+', '0', '0', '0', '0'] (tz ++ ['"']) =
          .error (.expected ['G', 'M', 'T', '+', '0', '0', '0', '0'] (tz ++ ['"'])) := by
        apply expectChars_mismatch _ _ _ ((tz ++ ['"']).drop 8)
        · show readChars 8 (tz ++ ['"']) = _
          rw [hread, htake]
        · exact hne
      rw [hexp, bindE_error]
      simp
  · by_cases hlen6 : tz.length = 6
    · have hlenX : (tz ++ ['"']).length + 1 = 8 := by simp [hlen6]
      have hread : readChars 8 (tz ++ ['"']) = .ok ((tz ++ ['"']) ++ ['\x00'], []) := by
        rw [← hlenX]
        exact readChars_short_one (tz ++ ['"'])
      have hne : (tz ++ ['"']) ++ ['\x00'] ≠ ['G', 'M', 'T', '+', '0', '0', '0', '0'] := by
        intro he
        have hl : ((tz ++ ['"']) ++ ['\x00']).getLast? = some '\x00' :=
          List.getLast?_concat (tz ++ ['"'])
        rw [he] at hl
        exact absurd hl (by decide)
      have hexp : expectChars ['G', 'M', 'T', '+', '0', '0', '0', '0'] (tz ++ ['"']) =
          .error (.expected ['G', 'M', 'T', '+', '0', '0', '0', '0'] ((tz ++ ['"']) ++ ['\x00'])) := by
        apply expectChars_mismatch _ _ _ []
        · exact hread
        · exact hne
      rw [hexp, bindE_error]
      simp
    · have hshort : (tz ++ ['"']).length + 2 ≤ 8 := by simp; omega
      have hread : readChars 8 (tz ++ ['"']) = .error .eof :=
        readChars_too_short 8 (tz ++ ['"']) hshort
      have hexp : expectChars ['G', 'M', 'T', '+', '0', '0', '0', '0'] (tz ++ ['"']) =
          .error .eof := expectChars_readErr _ _ .eof hread
      rw [hexp, bindE_error]
      simp

/-- Witness for C5 at the concrete suffix GMT-0000. -/
theorem c5_timezone_literal_required_witness :
    (unmarshalJSON (mkTzInput ['G', 'M', 'T', '-', '0', '0', '0', '0']) dInit).2 ≠ none :=
  c5_timezone_literal_required ['G', 'M', 'T', '-', '0', '0', '0', '0'] dInit
    (by decide) (by decide) (by decide)

end Datos
